import Mathlib

/-!
Verification of `scripts/fix_unwraps.py`, a static-analysis tool that scans a
Rust source tree for `.unwrap()` / `.expect("...")` / `panic!(` occurrences,
proposes textual replacements, prints an aggregated report and emits a
companion fix script.

The Python code is shallowly embedded here.  Lines and paths are `List Char`;
the regular expressions of the script are all of one of two simple shapes and
are embedded as executable scanners:
  * plain substring search (`\.unwrap\(\)`, `panic!\(`, the test-marker
    alternation) becomes `containsSub`;
  * `pre("([^"]*)")` -shaped searches (`\.expect\("([^"]*)"\)`,
    `panic!\("([^"]*)"\)`) become `litSearch pre`, which scans positions left
    to right exactly as `re.search` does for these patterns.
Python's `str.replace` (replace every non-overlapping occurrence, scanning
left to right) is embedded as `replaceL`.
-/

/-- Abbreviation: the character list of a string literal. -/
def str (s : String) : List Char := s.data

/-- The double-quote character (code point 34). -/
def dq : Char := Char.ofNat 34

/-- The single-quote character (code point 39), used in the emitted sed command. -/
def apos : Char := Char.ofNat 39

/-- Python's `pat in s` substring test (all the script's plain-literal regex
searches reduce to this). -/
def containsSub (pat : List Char) : List Char → Bool
  | [] => pat.isEmpty
  | c :: rest => pat.isPrefixOf (c :: rest) || containsSub pat rest

/-- ASCII whitespace recognised by Python's `str.strip()`. -/
def isPySpace (c : Char) : Bool :=
  c == ' ' || c == '\t' || c == '\n' || c == '\r' || c == Char.ofNat 11 || c == Char.ofNat 12

/-- Python's `str.strip()`: drop leading and trailing whitespace. -/
def pyStrip (s : List Char) : List Char :=
  ((s.dropWhile isPySpace).reverse.dropWhile isPySpace).reverse

/-- Worker for `replaceL`.  While `k > 0` the scanner is inside an already
matched occurrence and drops characters; at `k = 0` it matches the pattern at
the current position (emitting `repl`) or copies one character. -/
def replaceAux (pat repl : List Char) : Nat → List Char → List Char
  | _, [] => []
  | k+1, _ :: rest => replaceAux pat repl k rest
  | 0, c :: rest =>
    if pat.isPrefixOf (c :: rest) ∧ pat ≠ [] then
      repl ++ replaceAux pat repl (pat.length - 1) rest
    else
      c :: replaceAux pat repl 0 rest

/-- Python's `s.replace(pat, repl)`: replace every non-overlapping occurrence
of `pat`, scanning left to right. -/
def replaceL (pat repl s : List Char) : List Char :=
  replaceAux pat repl 0 s

/-- Match of the regex `pre("([^"]*)")`-shape at the start of `s`: the literal
prefix `pre` (which ends in a double quote), then the captured run of
non-quote characters, then `")`.  Returns the capture. -/
def litMatchAt (pre : List Char) (s : List Char) : Option (List Char) :=
  if pre.isPrefixOf s then
    let rest := s.drop pre.length
    let m := rest.takeWhile (fun c => !(c == dq))
    if (str "\")").isPrefixOf (rest.drop m.length) then some m else none
  else none

/-- `re.search` for the `pre("([^"]*)")`-shaped patterns: try each start
position left to right, return the first capture. -/
def litSearch (pre : List Char) : List Char → Option (List Char)
  | [] => none
  | c :: rest =>
    match litMatchAt pre (c :: rest) with
    | some m => some m
    | none => litSearch pre rest

/-- Literal prefix of `expect_pattern = \.expect\("([^"]*)"\)`. -/
def expectPre : List Char := str ".expect(\""

/-- Literal prefix of the panic message regex `panic!\("([^"]*)"\)`. -/
def panicPre : List Char := str "panic!(\""

/-- `unwrap_pattern.search(line)`: the regex `\.unwrap\(\)` is a literal. -/
def unwrapMatch (line : List Char) : Bool :=
  containsSub (str ".unwrap()") line

/-- `expect_pattern.search(line)` succeeds. -/
def expectMatch (line : List Char) : Bool :=
  (litSearch expectPre line).isSome

/-- `panic_pattern.search(line)`: the regex `panic!\(` is a literal. -/
def panicMatch (line : List Char) : Bool :=
  containsSub (str "panic!(") line

/-- `test_pattern.search(line)`: the regex is an alternation of three literals. -/
def testMatch (line : List Char) : Bool :=
  containsSub (str "#[cfg(test)]") line || containsSub (str "#[test]") line ||
    containsSub (str "mod tests") line

/-- `line.strip().startswith("//")`. -/
def isComment (line : List Char) : Bool :=
  (str "//").isPrefixOf (pyStrip line)

/-- Replacement text of the lock-rule of `suggest_unwrap_fix`. -/
def lockRepl : List Char := str ".map_err(|e| StorageError::LockError(e.to_string()))?"

/-- Replacement text of the parse-rule of `suggest_unwrap_fix`. -/
def parseRepl : List Char := str ".map_err(|e| ValidationError::ParseError(e.to_string()))?"

/-- Replacement text of the string-conversion rule of `suggest_unwrap_fix`. -/
def convRepl : List Char := str ".map_err(|_| ValidationError::ConversionError)?"

/-- `UnwrapFixer.suggest_unwrap_fix`. -/
def suggest_unwrap_fix (line : List Char) : List Char :=
  if containsSub (str "lock().unwrap()") line then
    replaceL (str ".unwrap()") lockRepl line
  else if containsSub (str "parse().unwrap()") line then
    replaceL (str ".unwrap()") parseRepl line
  else if containsSub (str "to_string().unwrap()") line then
    replaceL (str ".unwrap()") convRepl line
  else
    replaceL (str ".unwrap()") (str "?") line

/-- The `.ok_or_else` replacement text built by `suggest_expect_fix` for
message `m`. -/
def expectRepl (m : List Char) : List Char :=
  str ".ok_or_else(|| ValidationError::InvalidInput(\"" ++ m ++ str "\".to_string()))?"

/-- The full `.expect("m")` text that `suggest_expect_fix` replaces. -/
def expectCall (m : List Char) : List Char :=
  expectPre ++ m ++ str "\")"

/-- `UnwrapFixer.suggest_expect_fix`. -/
def suggest_expect_fix (line : List Char) : List Char :=
  match litSearch expectPre line with
  | some m => replaceL (expectCall m) (expectRepl m) line
  | none => line

/-- The `return Err(...)` statement built by `suggest_panic_fix` for message `m`. -/
def panicRet (m : List Char) : List Char :=
  str "return Err(SupernovaError::InternalError(\"" ++ m ++ str "\".to_string()));"

/-- `UnwrapFixer.suggest_panic_fix`. -/
def suggest_panic_fix (line : List Char) : List Char :=
  if containsSub (str "panic!(") line then
    match litSearch panicPre line with
    | some m => panicRet m
    | none => panicRet (str "Unexpected error")
  else line

example : suggest_unwrap_fix (str "let v = data.lock().unwrap();") =
    str "let v = data.lock().map_err(|e| StorageError::LockError(e.to_string()))?;" := by decide

example : suggest_unwrap_fix (str "let x = y.unwrap();") = str "let x = y?;" := by decide

example : suggest_expect_fix (str "let y = x.expect(\"must exist\");") =
    str "let y = x.ok_or_else(|| ValidationError::InvalidInput(\"must exist\".to_string()))?;" := by
  decide

example : suggest_panic_fix (str "panic!(\"bad state\");") =
    str "return Err(SupernovaError::InternalError(\"bad state\".to_string()));" := by decide

example : suggest_panic_fix (str "panic!();") =
    str "return Err(SupernovaError::InternalError(\"Unexpected error\".to_string()));" := by decide

example : pyStrip (str "   x.unwrap()  ") = str "x.unwrap()" := by decide

example : testMatch (str "mod tests") = true := by decide

/-- The per-file analysis result of `analyze_file`: for each construct kind the
list of `(1-based line number, stripped line text)` pairs, in scan order
(the `issues` dict of the script, whose insertion order is unwrap, expect,
panic). -/
structure Issues where
  unwrap : List (Nat × List Char)
  expect : List (Nat × List Char)
  panic : List (Nat × List Char)
deriving DecidableEq

/-- The loop of `analyze_file` (source lines 43-64): `i` is the 0-based index
of the current line, `flag` the `in_test_block` boolean. -/
def analyzeLoop (i : Nat) (flag : Bool) : List (List Char) → Issues
  | [] => ⟨[], [], []⟩
  | line :: rest =>
    let flag2 := flag || testMatch line
    if flag2 && !(isComment line) then
      analyzeLoop (i+1) flag2 rest
    else
      let r := analyzeLoop (i+1) flag2 rest
      ⟨(if unwrapMatch line then [(i+1, pyStrip line)] else []) ++ r.unwrap,
       (if expectMatch line then [(i+1, pyStrip line)] else []) ++ r.expect,
       (if panicMatch line then [(i+1, pyStrip line)] else []) ++ r.panic⟩

/-- `analyze_file` applied to the line list of a readable file. -/
def analyzeLines (lines : List (List Char)) : Issues :=
  analyzeLoop 0 false lines

/-- A file handed to the analysis stage: its path and its content as a list of
lines (`none` when `open`/`readlines` raises, the script's `except` branch). -/
structure FSFile where
  path : List Char
  content : Option (List (List Char))
deriving DecidableEq

/-- `UnwrapFixer.analyze_file`: an unreadable file leaves the `issues` dict in
its initial all-empty state. -/
def analyze_file (content : Option (List (List Char))) : Issues :=
  match content with
  | none => ⟨[], [], []⟩
  | some lines => analyzeLines lines

/-- A directory entry seen by `find_rust_files`: the file name and the string
form of its parent path. -/
structure DirEntry where
  name : List Char
  parent : List Char
deriving DecidableEq

/-- `UnwrapFixer.find_rust_files`: `rglob("*.rs")` keeps names ending in
`.rs`; the loop then skips entries with `"test" in file.name` or
`"tests" in str(file.parent)`. -/
def find_rust_files (entries : List DirEntry) : List DirEntry :=
  (entries.filter (fun e => (str ".rs").isSuffixOf e.name)).filter
    (fun e => !(containsSub (str "test") e.name || containsSub (str "tests") e.parent))

/-- Construct kind of a Finding (the `issue_type` strings of the script). -/
inductive Kind
  | unwrap
  | expect
  | panic
deriving DecidableEq

/-- Fixed rendering order of the kinds (insertion order of the `issues` dict). -/
def kindIdx : Kind → Nat
  | Kind.unwrap => 0
  | Kind.expect => 1
  | Kind.panic => 2

/-- The suggestion dispatch of `generate_fix_suggestions` (lines 77-82). -/
def suggestFor : Kind → List Char → List Char
  | Kind.unwrap, t => suggest_unwrap_fix t
  | Kind.expect, t => suggest_expect_fix t
  | Kind.panic, t => suggest_panic_fix t

/-- One entry of `all_issues`: the dict built at lines 84-90 of the script. -/
structure Suggestion where
  file : List Char
  line : Nat
  type : Kind
  original : List Char
  suggestion : List Char
deriving DecidableEq

/-- `UnwrapFixer.generate_fix_suggestions`: iterate the `issues` dict in
insertion order (unwrap, expect, panic), each kind's occurrences in list
order. -/
def generate_fix_suggestions (path : List Char) (I : Issues) : List Suggestion :=
  I.unwrap.map (fun e => ⟨path, e.1, Kind.unwrap, e.2, suggest_unwrap_fix e.2⟩)
    ++ I.expect.map (fun e => ⟨path, e.1, Kind.expect, e.2, suggest_expect_fix e.2⟩)
    ++ I.panic.map (fun e => ⟨path, e.1, Kind.panic, e.2, suggest_panic_fix e.2⟩)

/-- Python's `any(issues.values())`: some kind list is non-empty. -/
def anyIssues (I : Issues) : Bool :=
  !I.unwrap.isEmpty || !I.expect.isEmpty || !I.panic.isEmpty

/-- The state accumulated by the loop of `generate_report` (lines 129-145):
`all_issues`, the three totals, and the diagnostics printed by
`analyze_file`'s `except` branch. -/
structure RunResult where
  allIssues : List Suggestion
  tU : Nat
  tE : Nat
  tP : Nat
  diags : List (List Char)
deriving DecidableEq

/-- The per-file loop of `generate_report`: analyze each file, and when
`any(issues.values())` extend `all_issues` and bump the totals.  The
diagnostic of an unreadable file (the `print` in `analyze_file`'s `except`
branch, with the exception text abstracted away) is collected in `diags`. -/
def runAll : List FSFile → RunResult
  | [] => ⟨[], 0, 0, 0, []⟩
  | f :: rest =>
    let I := analyze_file f.content
    let r := runAll rest
    ⟨(if anyIssues I then generate_fix_suggestions f.path I else []) ++ r.allIssues,
     (if anyIssues I then I.unwrap.length else 0) + r.tU,
     (if anyIssues I then I.expect.length else 0) + r.tE,
     (if anyIssues I then I.panic.length else 0) + r.tP,
     (match f.content with
      | none => [str "Error reading " ++ f.path]
      | some _ => []) ++ r.diags⟩

/-- The `TOTAL ISSUES` figure printed at line 154 of the script. -/
def printedTotal (files : List FSFile) : Nat :=
  (runAll files).tU + (runAll files).tE + (runAll files).tP

/-- One step of the grouping loop at lines 158-163: a Python dict keyed by
file path, in insertion order, each value extended by appending. -/
def addToGroup : List (List Char × List Suggestion) → Suggestion →
    List (List Char × List Suggestion)
  | [], s => [(s.file, [s])]
  | (k, v) :: rest, s =>
    if k = s.file then (k, v ++ [s]) :: rest else (k, v) :: addToGroup rest s

/-- `issues_by_file` of `generate_report`: group `all_issues` by file path. -/
def issues_by_file (files : List FSFile) : List (List Char × List Suggestion) :=
  (runAll files).allIssues.foldl addToGroup []

/-- Python string `<=` on two character lists: lexicographic by code point,
a proper prefix ordering before its extensions. -/
def listLe : List Char → List Char → Bool
  | [], _ => true
  | _ :: _, [] => false
  | a :: as2, b :: bs => if a.toNat = b.toNat then listLe as2 bs else decide (a.toNat < b.toNat)

/-- Insert an entry into a key-sorted association list. -/
def insertByKey (p : List Char × List Suggestion) :
    List (List Char × List Suggestion) → List (List Char × List Suggestion)
  | [] => [p]
  | q :: rest => if listLe p.1 q.1 then p :: q :: rest else q :: insertByKey p rest

/-- `sorted(issues_by_file.items())` (the keys are distinct file paths, so the
sort only compares keys): insertion sort by `listLe` on the key. -/
def sortByKey : List (List Char × List Suggestion) → List (List Char × List Suggestion)
  | [] => []
  | p :: rest => insertByKey p (sortByKey rest)

/-- The per-file sections of the detailed report, in print order (lines
169-174 of the script): files sorted by path, each with its `all_issues`
entries in grouping order. -/
def detailedReport (files : List FSFile) : List (List Char × List Suggestion) :=
  sortByKey (issues_by_file files)

example :
    (detailedReport [⟨str "src/a.rs", some [str "x.expect(\"m\")\n", str "y.unwrap()\n"]⟩]).map
      (fun p => p.2.map Suggestion.line) = [[2, 1]] := by decide

/-- Decimal rendering of a line number, as Python interpolates it. -/
def natStr (n : Nat) : List Char := Nat.toDigits 10 n

/-- The commented-out sed command emitted for an unwrap Finding (line 192 of
the script): `# sed -i '' 's/\.unwrap()/\?/g' <file>`. -/
def sedLineFor (file : List Char) : List Char :=
  str "# sed -i " ++ [apos, apos] ++ str " " ++ [apos] ++ str "s/\\.unwrap()/\\?/g" ++
    [apos] ++ str " " ++ file

/-- The two lines `generate_fix_script` writes for one Finding
(lines 190-198 of the script). -/
def findingLines (s : Suggestion) : List (List Char) :=
  match s.type with
  | Kind.unwrap => [str "# Line " ++ natStr s.line ++ str ": Replace unwrap()", sedLineFor s.file]
  | Kind.expect => [str "# Line " ++ natStr s.line ++ str ": Replace expect()",
      str "# Manual fix needed"]
  | Kind.panic => [str "# Line " ++ natStr s.line ++ str ": Replace panic!",
      str "# Manual fix needed"]

/-- The fixed header chunk written at lines 182-184 of the script
(`"#!/bin/bash\n"`, two comment lines, and the blank line of the final
`"\n\n"`). -/
def headerLines : List (List Char) :=
  [str "#!/bin/bash", str "# Script to apply unwrap fixes",
   str "# Review each change before running!", str ""]

/-- The chunk written for one file: `"\n# Fixes for {file}\n"` (a blank line
then a comment line) followed by the per-finding lines. -/
def fileBlock (p : List Char × List Suggestion) : List (List Char) :=
  str "" :: (str "# Fixes for " ++ p.1) :: p.2.flatMap findingLines

/-- `UnwrapFixer.generate_fix_script`, as the line sequence of the artifact
`apply_unwrap_fixes.sh`. -/
def scriptLines (grouped : List (List Char × List Suggestion)) : List (List Char) :=
  headerLines ++ grouped.flatMap fileBlock

example : scriptLines (issues_by_file []) = headerLines := by decide

theorem replaceAux_skip (pat repl : List Char) :
    ∀ (s : List Char) (k : Nat), replaceAux pat repl k s = replaceAux pat repl 0 (s.drop k) := by
  intro s
  induction s with
  | nil => intro k; cases k <;> simp [replaceAux]
  | cons c rest ih =>
    intro k
    cases k with
    | zero => rfl
    | succ k2 => simpa [replaceAux] using ih k2

theorem replace_no_occ (pat repl : List Char) :
    ∀ (s : List Char), (∀ i, pat.isPrefixOf (s.drop i) = false) →
      replaceAux pat repl 0 s = s := by
  intro s
  induction s with
  | nil => intro _; rfl
  | cons c rest ih =>
    intro h
    have h0 : pat.isPrefixOf (c :: rest) = false := by simpa using h 0
    rw [replaceAux, if_neg]
    · have : replaceAux pat repl 0 rest = rest := by
        refine ih (fun i => ?_)
        simpa using h (i + 1)
      rw [this]
    · intro hc
      rw [h0] at hc
      exact absurd hc.1 (by simp)

theorem replace_unique_core (pat repl b : List Char) (hp : pat ≠ []) :
    ∀ (a : List Char),
      (∀ i, pat.isPrefixOf ((a ++ pat ++ b).drop i) = true → i = a.length) →
      replaceAux pat repl 0 (a ++ pat ++ b) = a ++ repl ++ b := by
  intro a
  induction a with
  | nil =>
    intro h
    cases pat with
    | nil => exact absurd rfl hp
    | cons p0 pt =>
      have hpre : (p0 :: pt).isPrefixOf ((p0 :: pt) ++ b) = true :=
        List.isPrefixOf_iff_prefix.mpr (List.prefix_append _ _)
      simp only [List.nil_append]
      rw [show (p0 :: pt) ++ b = p0 :: (pt ++ b) from rfl]
      rw [replaceAux, if_pos ⟨by exact_mod_cast hpre, by simp⟩]
      have h1 : replaceAux (p0 :: pt) repl ((p0 :: pt).length - 1) (pt ++ b) =
          replaceAux (p0 :: pt) repl 0 b := by
        rw [replaceAux_skip]
        congr 1
        simp
      rw [h1]
      have h2 : replaceAux (p0 :: pt) repl 0 b = b := by
        refine replace_no_occ _ _ _ (fun i => ?_)
        cases hEq : (p0 :: pt).isPrefixOf (b.drop i) with
        | false => rfl
        | true =>
          have hdrop : ((p0 :: pt) ++ b).drop ((p0 :: pt).length + i) = b.drop i :=
            List.drop_append i
          have := h ((p0 :: pt).length + i) (by
            rw [List.nil_append, hdrop]; exact hEq)
          simp at this
      rw [h2]
  | cons x a2 ih =>
    intro h
    have hne : pat.isPrefixOf (x :: (a2 ++ pat ++ b)) = false := by
      cases hEq : pat.isPrefixOf (x :: (a2 ++ pat ++ b)) with
      | false => rfl
      | true =>
        have := h 0 (by simpa using hEq)
        simp at this
    rw [show (x :: a2) ++ pat ++ b = x :: (a2 ++ pat ++ b) from rfl]
    rw [replaceAux, if_neg (by
      intro hc
      rw [hne] at hc
      exact absurd hc.1 (by simp))]
    rw [ih (fun i hi => ?_)]
    · simp
    · have := h (i + 1) (by simpa using hi)
      simpa using this

theorem isPrefixOf_nil_elim {pat : List Char} (hp : pat ≠ [])
    (h : pat.isPrefixOf ([] : List Char) = true) : False := by
  have := List.isPrefixOf_iff_prefix.mp h
  exact hp (List.prefix_nil.mp this)

/-- `str.replace` on a line with a unique occurrence of `pat` rewrites just
that occurrence and leaves the rest of the line intact. -/
theorem replaceL_unique (pat repl a b : List Char) (hp : pat ≠ [])
    (h : ∀ i < (a ++ pat ++ b).length,
      pat.isPrefixOf ((a ++ pat ++ b).drop i) = true → i = a.length) :
    replaceL pat repl (a ++ pat ++ b) = a ++ repl ++ b := by
  refine replace_unique_core pat repl b hp a (fun i hi => ?_)
  by_cases hlen : i < (a ++ pat ++ b).length
  · exact h i hlen hi
  · exfalso
    have hdrop : ((a ++ pat ++ b)).drop i = [] := by
      refine List.drop_eq_nil_of_le ?_
      omega
    rw [hdrop] at hi
    exact isPrefixOf_nil_elim hp hi

/-- C4: for an unwrap Finding whose line has exactly one `.unwrap()`
occurrence, `suggest_unwrap_fix` applies exactly one rule, chosen in priority
order with first match winning — a line containing the lock-acquisition
substring gets the error-mapped lock-error propagation, else the parse
substring the parse-error variant, else the string-conversion substring the
conversion-error variant, else a bare `?` — and in every case only the
`.unwrap()` occurrence is rewritten: the text before and after it is
untouched. -/
theorem C4_unwrap_rules (line a b : List Char)
    (hd : line = a ++ str ".unwrap()" ++ b)
    (hU : ∀ i < line.length,
      (str ".unwrap()").isPrefixOf (line.drop i) = true → i = a.length) :
    suggest_unwrap_fix line =
      a ++ (if containsSub (str "lock().unwrap()") line then lockRepl
            else if containsSub (str "parse().unwrap()") line then parseRepl
            else if containsSub (str "to_string().unwrap()") line then convRepl
            else str "?") ++ b := by
  have hp : (str ".unwrap()") ≠ [] := by decide
  subst hd
  by_cases h1 : containsSub (str "lock().unwrap()") (a ++ str ".unwrap()" ++ b) = true
  · simp only [suggest_unwrap_fix, h1, if_true]
    exact replaceL_unique _ _ _ _ hp hU
  · by_cases h2 : containsSub (str "parse().unwrap()") (a ++ str ".unwrap()" ++ b) = true
    · simp only [suggest_unwrap_fix, h1, h2, if_true, if_false, Bool.false_eq_true]
      exact replaceL_unique _ _ _ _ hp hU
    · by_cases h3 : containsSub (str "to_string().unwrap()") (a ++ str ".unwrap()" ++ b) = true
      · simp only [suggest_unwrap_fix, h1, h2, h3, if_true, if_false, Bool.false_eq_true]
        exact replaceL_unique _ _ _ _ hp hU
      · simp only [suggest_unwrap_fix, h1, h2, h3, if_false, Bool.false_eq_true]
        exact replaceL_unique _ _ _ _ hp hU

/-- Witness for C4 at the spec's example line `let v = data.lock().unwrap();`. -/
theorem C4_unwrap_rules_witness :
    suggest_unwrap_fix (str "let v = data.lock().unwrap();") =
      str "let v = data.lock()" ++ lockRepl ++ str ";" := by
  have h := C4_unwrap_rules (str "let v = data.lock().unwrap();")
      (str "let v = data.lock()") (str ";") (by decide) (by decide)
  rw [h]
  decide

theorem str_quote_paren : str "\")" = [dq, ')'] := by decide

theorem litMatchAt_nil (pre : List Char) : litMatchAt pre [] = none := by
  unfold litMatchAt
  split
  · rw [List.drop_nil]
    simp only [List.takeWhile_nil, List.drop_nil]
    rw [if_neg (by decide)]
  · rfl

theorem litMatchAt_hit (pre m t : List Char) (hm : dq ∉ m) :
    litMatchAt pre (pre ++ m ++ (dq :: ')' :: t)) = some m := by
  have h1 : pre.isPrefixOf (pre ++ m ++ (dq :: ')' :: t)) = true := by
    refine List.isPrefixOf_iff_prefix.mpr ?_
    rw [List.append_assoc]
    exact List.prefix_append _ _
  have htw : (m ++ (dq :: ')' :: t)).takeWhile (fun c => !(c == dq)) = m := by
    rw [List.takeWhile_append]
    have hself : (m.takeWhile (fun c => !(c == dq))) = m := by
      refine List.takeWhile_eq_self_iff.mpr (fun x hx => ?_)
      have hne : x ≠ dq := fun h => hm (h ▸ hx)
      simp [hne]
    rw [if_pos (by rw [hself])]
    rw [List.takeWhile_cons_of_neg (by simp)]
    simp
  have hdropm : (pre ++ m ++ (dq :: ')' :: t)).drop pre.length = m ++ (dq :: ')' :: t) := by
    rw [List.append_assoc]
    exact List.drop_left _ _
  unfold litMatchAt
  rw [if_pos h1]
  simp only [hdropm, htw]
  rw [if_pos ?hc]
  case hc =>
    have : (m ++ (dq :: ')' :: t)).drop m.length = dq :: ')' :: t := List.drop_left _ _
    rw [this, str_quote_paren]
    exact List.isPrefixOf_iff_prefix.mpr ⟨t, rfl⟩

theorem litMatchAt_of_decomp (pre m : List Char) (hm : dq ∉ m) (s : List Char)
    (h : (pre ++ m ++ str "\")").isPrefixOf s = true) :
    litMatchAt pre s = some m := by
  obtain ⟨u, hu⟩ := List.isPrefixOf_iff_prefix.mp h
  have hshape : (pre ++ m ++ str "\")") ++ u = pre ++ m ++ (dq :: ')' :: u) := by
    rw [str_quote_paren]
    simp
  rw [← hu, hshape]
  exact litMatchAt_hit pre m u hm

theorem litSearch_hit (pre : List Char) :
    ∀ (line : List Char) (n : Nat) (m : List Char),
      litMatchAt pre (line.drop n) = some m →
      (∀ j < n, litMatchAt pre (line.drop j) = none) →
      litSearch pre line = some m := by
  intro line
  induction line with
  | nil =>
    intro n m h _
    rw [List.drop_nil, litMatchAt_nil] at h
    exact absurd h (by simp)
  | cons c rest ih =>
    intro n m h hj
    cases n with
    | zero =>
      rw [List.drop_zero] at h
      simp only [litSearch, h]
    | succ n2 =>
      have h0 : litMatchAt pre (c :: rest) = none := by simpa using hj 0 (Nat.succ_pos _)
      simp only [litSearch, h0]
      exact ih n2 m (by simpa using h) (fun j hjlt => by simpa using hj (j+1) (by omega))

theorem litSearch_from_unique (pre m a b : List Char) (hm : dq ∉ m)
    (hU : ∀ i < (a ++ (pre ++ m ++ str "\")") ++ b).length,
      litMatchAt pre ((a ++ (pre ++ m ++ str "\")") ++ b).drop i) ≠ none → i = a.length) :
    litSearch pre (a ++ (pre ++ m ++ str "\")") ++ b) = some m := by
  have hPne : (pre ++ m ++ str "\")") ≠ [] := by
    intro hc
    have : (str "\")" : List Char) = [] := by
      cases List.append_eq_nil.mp hc with
      | intro h1 h2 => exact h2
    exact absurd this (by decide)
  have hlen : a.length < (a ++ (pre ++ m ++ str "\")") ++ b).length := by
    have hpos : 0 < (pre ++ m ++ str "\")").length := List.length_pos.mpr hPne
    simp only [List.length_append] at hpos ⊢
    omega
  have hdrop : (a ++ (pre ++ m ++ str "\")") ++ b).drop a.length =
      (pre ++ m ++ str "\")") ++ b := by
    rw [List.append_assoc]
    exact List.drop_left _ _
  have hAt : litMatchAt pre ((a ++ (pre ++ m ++ str "\")") ++ b).drop a.length) = some m := by
    rw [hdrop]
    exact litMatchAt_of_decomp pre m hm _
      (List.isPrefixOf_iff_prefix.mpr (List.prefix_append _ _))
  have hnone : ∀ j < a.length,
      litMatchAt pre ((a ++ (pre ++ m ++ str "\")") ++ b).drop j) = none := by
    intro j hj
    cases hEq : litMatchAt pre ((a ++ (pre ++ m ++ str "\")") ++ b).drop j) with
    | none => rfl
    | some m2 =>
      have := hU j (by omega) (by rw [hEq]; simp)
      omega
  exact litSearch_hit pre _ a.length m hAt hnone

/-- C5: for an expect Finding whose line contains a unique annotated
expectation `.expect("m")`, `suggest_expect_fix` replaces the expectation
call by `.ok_or_else(|| ValidationError::InvalidInput("m".to_string()))?`
(carrying the message `m`) and leaves the rest of the line unchanged. -/
theorem C5_expect_rule (line a m b : List Char) (hm : dq ∉ m)
    (hd : line = a ++ expectCall m ++ b)
    (hU : ∀ i < line.length, litMatchAt expectPre (line.drop i) ≠ none → i = a.length) :
    suggest_expect_fix line = a ++ expectRepl m ++ b := by
  subst hd
  have hsearch : litSearch expectPre (a ++ expectCall m ++ b) = some m :=
    litSearch_from_unique expectPre m a b hm hU
  have hstep : suggest_expect_fix (a ++ expectCall m ++ b) =
      replaceL (expectCall m) (expectRepl m) (a ++ expectCall m ++ b) := by
    simp only [suggest_expect_fix, hsearch]
  rw [hstep]
  have hPne : expectCall m ≠ [] := by
    intro hc
    have : (str "\")" : List Char) = [] := by
      cases List.append_eq_nil.mp hc with
      | intro h1 h2 => exact h2
    exact absurd this (by decide)
  refine replaceL_unique (expectCall m) (expectRepl m) a b hPne (fun i hi hpre => ?_)
  refine hU i hi ?_
  have hpre2 : (expectPre ++ m ++ str "\")").isPrefixOf
      (List.drop i (a ++ expectCall m ++ b)) = true := hpre
  rw [litMatchAt_of_decomp expectPre m hm _ hpre2]
  simp

/-- Witness for C5 at the spec's example `x.expect("must exist")`. -/
theorem C5_expect_rule_witness :
    suggest_expect_fix (str "let y = x.expect(\"must exist\");") =
      str "let y = x" ++ expectRepl (str "must exist") ++ str ";" := by
  exact C5_expect_rule (str "let y = x.expect(\"must exist\");") (str "let y = x")
    (str "must exist") (str ";") (by decide) (by decide) (by decide)

theorem containsSub_cons (pat : List Char) (c : Char) (rest : List Char) :
    containsSub pat (c :: rest) = (pat.isPrefixOf (c :: rest) || containsSub pat rest) := rfl

theorem containsSub_of_mid (pat : List Char) (hp : pat ≠ []) :
    ∀ (a c : List Char), containsSub pat (a ++ pat ++ c) = true := by
  intro a
  induction a with
  | nil =>
    intro c
    cases pat with
    | nil => exact absurd rfl hp
    | cons p0 pt =>
      have hpre : (p0 :: pt).isPrefixOf (p0 :: (pt ++ c)) = true :=
        List.isPrefixOf_iff_prefix.mpr ⟨c, rfl⟩
      rw [List.nil_append, List.cons_append, containsSub_cons, hpre]
      simp
  | cons x a2 ih =>
    intro c
    rw [List.cons_append, List.cons_append, containsSub_cons, ih c]
    simp

theorem panicPre_split : panicPre = str "panic!(" ++ [dq] := by decide

/-- C6: for a panic Finding, if the abort invocation carries a (unique)
extractable string-literal message `m`, `suggest_panic_fix` returns the full
return statement carrying `m` in the internal-error variant; if no literal
message is extractable, it returns the full return statement with the fixed
generic message `"Unexpected error"`. -/
theorem C6_panic_rules :
    (∀ line a m b : List Char, dq ∉ m →
      line = a ++ (panicPre ++ m ++ str "\")") ++ b →
      (∀ i < line.length, litMatchAt panicPre (line.drop i) ≠ none → i = a.length) →
      suggest_panic_fix line = panicRet m) ∧
    (∀ line : List Char, containsSub (str "panic!(") line = true →
      litSearch panicPre line = none →
      suggest_panic_fix line = panicRet (str "Unexpected error")) := by
  constructor
  · intro line a m b hm hd hU
    subst hd
    have hsearch : litSearch panicPre (a ++ (panicPre ++ m ++ str "\")") ++ b) = some m :=
      litSearch_from_unique panicPre m a b hm hU
    have hin : containsSub (str "panic!(")
        (a ++ (panicPre ++ m ++ str "\")") ++ b) = true := by
      have hshape : a ++ (panicPre ++ m ++ str "\")") ++ b =
          a ++ str "panic!(" ++ ([dq] ++ m ++ str "\")" ++ b) := by
        rw [panicPre_split]
        simp
      rw [hshape]
      have := containsSub_of_mid (str "panic!(") (by decide) a
        ([dq] ++ m ++ str "\")" ++ b)
      simpa using this
    simp only [suggest_panic_fix, hin, if_true, hsearch]
  · intro line h1 h2
    simp only [suggest_panic_fix, h1, if_true, h2]

/-- Witness for C6 at the spec's examples `panic!("bad state")` and `panic!()`. -/
theorem C6_panic_rules_witness :
    suggest_panic_fix (str "panic!(\"bad state\");") = panicRet (str "bad state") ∧
    suggest_panic_fix (str "    panic!();") = panicRet (str "Unexpected error") := by
  constructor
  · exact C6_panic_rules.1 (str "panic!(\"bad state\");") (str "") (str "bad state")
      (str ";") (by decide) (by decide) (by decide)
  · exact C6_panic_rules.2 (str "    panic!();") (by decide) (by decide)

/-- The analysis loop restricted to one construct kind with match predicate
`p`; `analyzeLoop` is the three-kind bundle of this scanner. -/
def scanK (p : List Char → Bool) (i : Nat) (flag : Bool) :
    List (List Char) → List (Nat × List Char)
  | [] => []
  | line :: rest =>
    let flag2 := flag || testMatch line
    if flag2 && !(isComment line) then scanK p (i+1) flag2 rest
    else (if p line then [(i+1, pyStrip line)] else []) ++ scanK p (i+1) flag2 rest

theorem scanK_cons (p : List Char → Bool) (i : Nat) (flag : Bool) (line : List Char)
    (rest : List (List Char)) :
    scanK p i flag (line :: rest) =
      if ((flag || testMatch line) && !(isComment line)) = true then
        scanK p (i+1) (flag || testMatch line) rest
      else
        (if p line = true then [(i+1, pyStrip line)] else []) ++
          scanK p (i+1) (flag || testMatch line) rest := rfl

theorem analyzeLoop_eq_scanK :
    ∀ (lines : List (List Char)) (i : Nat) (flag : Bool),
      analyzeLoop i flag lines =
        ⟨scanK unwrapMatch i flag lines, scanK expectMatch i flag lines,
         scanK panicMatch i flag lines⟩ := by
  intro lines
  induction lines with
  | nil => intro i flag; rfl
  | cons line rest ih =>
    intro i flag
    rw [scanK_cons, scanK_cons, scanK_cons]
    show (if ((flag || testMatch line) && !(isComment line)) = true then
        analyzeLoop (i+1) (flag || testMatch line) rest
      else
        let r := analyzeLoop (i+1) (flag || testMatch line) rest
        ⟨(if unwrapMatch line then [(i+1, pyStrip line)] else []) ++ r.unwrap,
         (if expectMatch line then [(i+1, pyStrip line)] else []) ++ r.expect,
         (if panicMatch line then [(i+1, pyStrip line)] else []) ++ r.panic⟩) = _
    by_cases hc : ((flag || testMatch line) && !(isComment line)) = true
    · rw [if_pos hc, if_pos hc, if_pos hc, if_pos hc]
      exact ih _ _
    · rw [if_neg hc, if_neg hc, if_neg hc, if_neg hc]
      rw [ih _ _]

theorem scanK_bounds (p : List Char → Bool) :
    ∀ (lines : List (List Char)) (i : Nat) (flag : Bool) (n : Nat) (t : List Char),
      (n, t) ∈ scanK p i flag lines → i + 1 ≤ n ∧ n ≤ i + lines.length := by
  intro lines
  induction lines with
  | nil => intro i flag n t h; simp [scanK] at h
  | cons line rest ih =>
    intro i flag n t h
    rw [scanK_cons] at h
    by_cases hc : ((flag || testMatch line) && !(isComment line)) = true
    · rw [if_pos hc] at h
      have := ih (i+1) _ n t h
      simp only [List.length_cons]
      omega
    · rw [if_neg hc] at h
      rcases List.mem_append.mp h with h1 | h2
      · by_cases hp2 : p line = true
        · rw [if_pos hp2] at h1
          simp only [List.mem_singleton, Prod.mk.injEq] at h1
          simp only [List.length_cons]
          omega
        · rw [if_neg hp2] at h1
          simp at h1
      · have := ih (i+1) _ n t h2
        simp only [List.length_cons]
        omega

/-- The `in_test_block` value after folding `flag` over a line prefix. -/
def inTestFrom (flag : Bool) (lines : List (List Char)) : Bool :=
  lines.foldl (fun f l => f || testMatch l) flag

theorem inTestFrom_cons (flag : Bool) (l : List Char) (rest : List (List Char)) :
    inTestFrom flag (l :: rest) = inTestFrom (flag || testMatch l) rest := rfl

theorem inTestFrom_true : ∀ lines, inTestFrom true lines = true := by
  intro lines
  induction lines with
  | nil => rfl
  | cons l rest ih =>
    rw [inTestFrom_cons, Bool.true_or]
    exact ih

/-- The sticky flag: once a marker has been seen at index `j`, the flag after
any later prefix is still `true`. -/
theorem inTestFrom_marker :
    ∀ (lines : List (List Char)) (flag : Bool) (j k : Nat), j ≤ k → j < lines.length →
      testMatch (lines.getD j []) = true → inTestFrom flag (lines.take (k+1)) = true := by
  intro lines
  induction lines with
  | nil => intro flag j k _ hj _; simp at hj
  | cons l rest ih =>
    intro flag j k hjk hj hm
    cases j with
    | zero =>
      have hm0 : testMatch l = true := by simpa using hm
      rw [List.take_succ_cons, inTestFrom_cons, hm0, Bool.or_true]
      exact inTestFrom_true _
    | succ j2 =>
      cases k with
      | zero => omega
      | succ k2 =>
        rw [List.take_succ_cons, inTestFrom_cons]
        exact ih _ j2 k2 (by omega) (by simpa using hj) (by simpa using hm)

/-- Sticky-skip, flag already set: with `in_test_block = true`, a non-comment
line at offset `k` contributes no entry. -/
theorem scanK_sticky (p : List Char → Bool) :
    ∀ (lines : List (List Char)) (i k : Nat), k < lines.length →
      isComment (lines.getD k []) = false →
      ∀ t, (i + k + 1, t) ∉ scanK p i true lines := by
  intro lines
  induction lines with
  | nil => intro i k hk; simp at hk
  | cons line rest ih =>
    intro i k hk hc t hmem
    rw [scanK_cons, Bool.true_or] at hmem
    cases k with
    | zero =>
      have hcl : isComment line = false := by simpa using hc
      rw [hcl] at hmem
      simp only [Bool.not_false, Bool.true_and, if_pos] at hmem
      have := (scanK_bounds p rest (i+1) true _ t hmem).1
      omega
    | succ k2 =>
      have hk2 : k2 < rest.length := by simpa using hk
      have hc2 : isComment (rest.getD k2 []) = false := by simpa using hc
      by_cases hcl : isComment line = true
      · rw [hcl] at hmem
        simp only [Bool.not_true, Bool.true_and, Bool.false_eq_true, if_false] at hmem
        rcases List.mem_append.mp hmem with h1 | h2
        · by_cases hp2 : p line = true
          · rw [if_pos hp2] at h1
            simp only [List.mem_singleton, Prod.mk.injEq] at h1
            omega
          · rw [if_neg hp2] at h1
            simp at h1
        · exact ih (i+1) k2 hk2 hc2 t (by
            have : i + 1 + k2 + 1 = i + (k2 + 1) + 1 := by omega
            rw [this]
            exact h2)
      · have hcl2 : isComment line = false := by
          cases hEq : isComment line with
          | false => rfl
          | true => exact absurd hEq hcl
        rw [hcl2] at hmem
        simp only [Bool.not_false, Bool.true_and, if_pos] at hmem
        exact ih (i+1) k2 hk2 hc2 t (by
          have : i + 1 + k2 + 1 = i + (k2 + 1) + 1 := by omega
          rw [this]
          exact hmem)

/-- Sticky-skip from a marker: a non-comment line at offset `k` at or after a
marker line at offset `j` contributes no entry, whatever the initial flag. -/
theorem scanK_after_marker (p : List Char → Bool) :
    ∀ (lines : List (List Char)) (i : Nat) (flag : Bool) (j k : Nat), j ≤ k →
      k < lines.length →
      testMatch (lines.getD j []) = true → isComment (lines.getD k []) = false →
      ∀ t, (i + k + 1, t) ∉ scanK p i flag lines := by
  intro lines
  induction lines with
  | nil => intro i flag j k _ hk; simp at hk
  | cons line rest ih =>
    intro i flag j k hjk hk hm hc t hmem
    rw [scanK_cons] at hmem
    cases j with
    | zero =>
      have hm0 : testMatch line = true := by simpa using hm
      rw [hm0, Bool.or_true] at hmem
      cases k with
      | zero =>
        have hcl : isComment line = false := by simpa using hc
        rw [hcl] at hmem
        simp only [Bool.not_false, Bool.true_and, if_pos] at hmem
        have := (scanK_bounds p rest (i+1) true _ t hmem).1
        omega
      | succ k2 =>
        have hk2 : k2 < rest.length := by simpa using hk
        have hc2 : isComment (rest.getD k2 []) = false := by simpa using hc
        have htail : (i + (k2 + 1) + 1, t) ∉ scanK p (i+1) true rest := by
          intro h2
          exact scanK_sticky p rest (i+1) k2 hk2 hc2 t (by
            have : i + 1 + k2 + 1 = i + (k2 + 1) + 1 := by omega
            rw [this]
            exact h2)
        by_cases hcl : isComment line = true
        · rw [hcl] at hmem
          simp only [Bool.not_true, Bool.and_false, Bool.false_eq_true, if_false] at hmem
          rcases List.mem_append.mp hmem with h1 | h2
          · by_cases hp2 : p line = true
            · rw [if_pos hp2] at h1
              simp only [List.mem_singleton, Prod.mk.injEq] at h1
              omega
            · rw [if_neg hp2] at h1
              simp at h1
          · exact htail h2
        · have hcl2 : isComment line = false := by
            cases hEq : isComment line with
            | false => rfl
            | true => exact absurd hEq hcl
          rw [hcl2] at hmem
          simp only [Bool.not_false, Bool.and_true, if_pos] at hmem
          exact htail hmem
    | succ j2 =>
      cases k with
      | zero => omega
      | succ k2 =>
        have hk2 : k2 < rest.length := by simpa using hk
        have hm2 : testMatch (rest.getD j2 []) = true := by simpa using hm
        have hc2 : isComment (rest.getD k2 []) = false := by simpa using hc
        have htail : (i + (k2 + 1) + 1, t) ∉ scanK p (i+1) (flag || testMatch line) rest := by
          intro h2
          exact ih (i+1) _ j2 k2 (by omega) hk2 hm2 hc2 t (by
            have : i + 1 + k2 + 1 = i + (k2 + 1) + 1 := by omega
            rw [this]
            exact h2)
        by_cases hcond : ((flag || testMatch line) && !(isComment line)) = true
        · rw [if_pos hcond] at hmem
          exact htail hmem
        · rw [if_neg hcond] at hmem
          rcases List.mem_append.mp hmem with h1 | h2
          · by_cases hp2 : p line = true
            · rw [if_pos hp2] at h1
              simp only [List.mem_singleton, Prod.mk.injEq] at h1
              omega
            · rw [if_neg hp2] at h1
              simp at h1
          · exact htail h2

/-- C2: once a test-region marker line has been seen at index `j`, the
`in_test_block` flag is still set after every later line `k`, and every later
non-comment line produces zero Findings of any kind, regardless of what it
matches. -/
theorem C2_sticky_skip (lines : List (List Char)) (j k : Nat) (hjk : j ≤ k)
    (hk : k < lines.length) (hm : testMatch (lines.getD j []) = true) :
    inTestFrom false (lines.take (k+1)) = true ∧
    (isComment (lines.getD k []) = false →
      ∀ t : List Char, (k+1, t) ∉ (analyzeLines lines).unwrap ∧
        (k+1, t) ∉ (analyzeLines lines).expect ∧ (k+1, t) ∉ (analyzeLines lines).panic) := by
  have hj : j < lines.length := lt_of_le_of_lt hjk hk
  constructor
  · exact inTestFrom_marker lines false j k hjk hj hm
  · intro hc t
    rw [analyzeLines, analyzeLoop_eq_scanK]
    refine ⟨?_, ?_, ?_⟩
    · have := scanK_after_marker unwrapMatch lines 0 false j k hjk hk hm hc t
      simpa using this
    · have := scanK_after_marker expectMatch lines 0 false j k hjk hk hm hc t
      simpa using this
    · have := scanK_after_marker panicMatch lines 0 false j k hjk hk hm hc t
      simpa using this

/-- Witness for C2: a file whose first line is `mod tests {` and whose second
line is a non-comment `.unwrap()` call that yields no Finding. -/
theorem C2_sticky_skip_witness :
    inTestFrom false ([str "mod tests", str "    x.unwrap();"].take 2) = true ∧
    (isComment ([str "mod tests", str "    x.unwrap();"].getD 1 []) = false →
      ∀ t : List Char,
        (2, t) ∉ (analyzeLines [str "mod tests", str "    x.unwrap();"]).unwrap ∧
        (2, t) ∉ (analyzeLines [str "mod tests", str "    x.unwrap();"]).expect ∧
        (2, t) ∉ (analyzeLines [str "mod tests", str "    x.unwrap();"]).panic) :=
  C2_sticky_skip [str "mod tests", str "    x.unwrap();"] 0 1 (by decide) (by decide)
    (by decide)

theorem scanK_count (p : List Char → Bool) :
    ∀ (lines : List (List Char)) (i : Nat) (flag : Bool) (k : Nat), k < lines.length →
      (inTestFrom flag (lines.take (k+1)) = false ∨ isComment (lines.getD k []) = true) →
      (scanK p i flag lines).countP (fun e => decide (e.1 = i + k + 1)) =
        if p (lines.getD k []) = true then 1 else 0 := by
  intro lines
  induction lines with
  | nil => intro i flag k hk; simp at hk
  | cons line rest ih =>
    intro i flag k hk hcond
    rw [scanK_cons]
    cases k with
    | zero =>
      have hflag : (flag || testMatch line) = false ∨ isComment line = true := by
        rcases hcond with h | h
        · left
          rw [List.take_succ_cons, List.take_zero] at h
          exact h
        · right
          simpa using h
      have hcondFalse : ¬ (((flag || testMatch line) && !(isComment line)) = true) := by
        rcases hflag with h | h
        · rw [h]; simp
        · rw [h]; simp
      rw [if_neg hcondFalse, List.countP_append]
      have htail : (scanK p (i+1) (flag || testMatch line) rest).countP
          (fun e => decide (e.1 = i + 0 + 1)) = 0 := by
        rw [List.countP_eq_zero]
        intro e he
        have hb := (scanK_bounds p rest (i+1) _ e.1 e.2 (by rw [Prod.mk.eta]; exact he)).1
        simp only [decide_eq_true_eq]
        omega
      rw [htail]
      by_cases hp2 : p line = true
      · rw [if_pos hp2]
        have : p ((line :: rest).getD 0 []) = true := by simpa using hp2
        rw [if_pos this]
        simp
      · rw [if_neg hp2]
        have : ¬ (p ((line :: rest).getD 0 []) = true) := by simpa using hp2
        rw [if_neg this]
        simp
    | succ k2 =>
      have hk2 : k2 < rest.length := by simpa using hk
      have hcond2 : inTestFrom (flag || testMatch line) (rest.take (k2+1)) = false ∨
          isComment (rest.getD k2 []) = true := by
        rcases hcond with h | h
        · left
          rw [List.take_succ_cons, inTestFrom_cons] at h
          exact h
        · right
          simpa using h
      have htail := ih (i+1) (flag || testMatch line) k2 hk2 hcond2
      have harith : i + 1 + k2 + 1 = i + (k2+1) + 1 := by omega
      rw [harith] at htail
      rw [show ((line :: rest).getD (k2+1) []) = rest.getD k2 [] from List.getD_cons_succ]
      by_cases hcondB : ((flag || testMatch line) && !(isComment line)) = true
      · rw [if_pos hcondB]
        exact htail
      · rw [if_neg hcondB, List.countP_append]
        have hhead : (if p line = true then [(i+1, pyStrip line)] else []).countP
            (fun e => decide (e.1 = i + (k2+1) + 1)) = 0 := by
          by_cases hp2 : p line = true
          · rw [if_pos hp2]
            simp only [List.countP_cons, List.countP_nil, decide_eq_true_eq]
            have : ¬ (i + 1 = i + (k2+1) + 1) := by omega
            simp [this]
          · rw [if_neg hp2]
            simp
        rw [hhead, htail]
        simp

/-- C10: an analyzed (non-skipped) line yields exactly one Finding for each
construct kind whose signature matches it — one per matching kind even when
the line matches several kinds, and exactly one of a kind however many
occurrences of that kind's signature the line contains. -/
theorem C10_per_line_findings (lines : List (List Char)) (k : Nat) (hk : k < lines.length)
    (h : inTestFrom false (lines.take (k+1)) = false ∨ isComment (lines.getD k []) = true) :
    (analyzeLines lines).unwrap.countP (fun e => decide (e.1 = k+1)) =
      (if unwrapMatch (lines.getD k []) then 1 else 0) ∧
    (analyzeLines lines).expect.countP (fun e => decide (e.1 = k+1)) =
      (if expectMatch (lines.getD k []) then 1 else 0) ∧
    (analyzeLines lines).panic.countP (fun e => decide (e.1 = k+1)) =
      (if panicMatch (lines.getD k []) then 1 else 0) := by
  rw [analyzeLines, analyzeLoop_eq_scanK]
  refine ⟨?_, ?_, ?_⟩
  · have := scanK_count unwrapMatch lines 0 false k hk h
    simpa using this
  · have := scanK_count expectMatch lines 0 false k hk h
    simpa using this
  · have := scanK_count panicMatch lines 0 false k hk h
    simpa using this

/-- Witness for C10: a line that matches both the unwrap and the panic
signature (the latter twice would still count once; here each matches once),
and matches no expect signature. -/
theorem C10_per_line_findings_witness :
    (analyzeLines [str "let a = b.unwrap(); panic!(\"x\"); c.unwrap();"]).unwrap.countP
        (fun e => decide (e.1 = 1)) =
      (if unwrapMatch ([str "let a = b.unwrap(); panic!(\"x\"); c.unwrap();"].getD 0 [])
        then 1 else 0) ∧
    (analyzeLines [str "let a = b.unwrap(); panic!(\"x\"); c.unwrap();"]).expect.countP
        (fun e => decide (e.1 = 1)) =
      (if expectMatch ([str "let a = b.unwrap(); panic!(\"x\"); c.unwrap();"].getD 0 [])
        then 1 else 0) ∧
    (analyzeLines [str "let a = b.unwrap(); panic!(\"x\"); c.unwrap();"]).panic.countP
        (fun e => decide (e.1 = 1)) =
      (if panicMatch ([str "let a = b.unwrap(); panic!(\"x\"); c.unwrap();"].getD 0 [])
        then 1 else 0) :=
  C10_per_line_findings [str "let a = b.unwrap(); panic!(\"x\"); c.unwrap();"] 0 (by decide)
    (Or.inl (by decide))

theorem anyIssues_false_empty (I : Issues) (h : anyIssues I = false) :
    I.unwrap = [] ∧ I.expect = [] ∧ I.panic = [] := by
  unfold anyIssues at h
  rcases Bool.or_eq_false_iff.mp h with ⟨h12, h3⟩
  rcases Bool.or_eq_false_iff.mp h12 with ⟨h1, h2⟩
  refine ⟨?_, ?_, ?_⟩
  · exact List.isEmpty_iff.mp (by simpa using h1)
  · exact List.isEmpty_iff.mp (by simpa using h2)
  · exact List.isEmpty_iff.mp (by simpa using h3)

theorem runAll_totals (files : List FSFile) :
    (runAll files).tU = (files.map (fun f => (analyze_file f.content).unwrap.length)).sum ∧
    (runAll files).tE = (files.map (fun f => (analyze_file f.content).expect.length)).sum ∧
    (runAll files).tP = (files.map (fun f => (analyze_file f.content).panic.length)).sum := by
  induction files with
  | nil => exact ⟨rfl, rfl, rfl⟩
  | cons f rest ih =>
    refine ⟨?_, ?_, ?_⟩
    · show (if anyIssues (analyze_file f.content) then (analyze_file f.content).unwrap.length
          else 0) + (runAll rest).tU = _
      rw [List.map_cons, List.sum_cons, ih.1]
      by_cases hA : anyIssues (analyze_file f.content) = true
      · rw [if_pos hA]
      · rw [if_neg hA]
        have := anyIssues_false_empty _ (by
          cases hEq : anyIssues (analyze_file f.content) with
          | false => rfl
          | true => exact absurd hEq hA)
        rw [this.1]
        simp
    · show (if anyIssues (analyze_file f.content) then (analyze_file f.content).expect.length
          else 0) + (runAll rest).tE = _
      rw [List.map_cons, List.sum_cons, ih.2.1]
      by_cases hA : anyIssues (analyze_file f.content) = true
      · rw [if_pos hA]
      · rw [if_neg hA]
        have := anyIssues_false_empty _ (by
          cases hEq : anyIssues (analyze_file f.content) with
          | false => rfl
          | true => exact absurd hEq hA)
        rw [this.2.1]
        simp
    · show (if anyIssues (analyze_file f.content) then (analyze_file f.content).panic.length
          else 0) + (runAll rest).tP = _
      rw [List.map_cons, List.sum_cons, ih.2.2]
      by_cases hA : anyIssues (analyze_file f.content) = true
      · rw [if_pos hA]
      · rw [if_neg hA]
        have := anyIssues_false_empty _ (by
          cases hEq : anyIssues (analyze_file f.content) with
          | false => rfl
          | true => exact absurd hEq hA)
        rw [this.2.2]
        simp

/-- C3: each per-kind total printed in the summary equals the number of
Findings of that kind across all FileReports (the `any(issues.values())`
guard drops nothing), the printed grand total is the sum of the three
per-kind totals, and the empty tree yields all-zero totals and a companion
script holding only the fixed header, no per-finding entries. -/
theorem C3_totals_invariant (files : List FSFile) :
    (runAll files).tU = (files.map (fun f => (analyze_file f.content).unwrap.length)).sum ∧
    (runAll files).tE = (files.map (fun f => (analyze_file f.content).expect.length)).sum ∧
    (runAll files).tP = (files.map (fun f => (analyze_file f.content).panic.length)).sum ∧
    printedTotal files = (runAll files).tU + (runAll files).tE + (runAll files).tP ∧
    (runAll ([] : List FSFile)).tU = 0 ∧ (runAll ([] : List FSFile)).tE = 0 ∧
    (runAll ([] : List FSFile)).tP = 0 ∧
    scriptLines (issues_by_file []) = headerLines :=
  ⟨(runAll_totals files).1, (runAll_totals files).2.1, (runAll_totals files).2.2,
   rfl, rfl, rfl, rfl, rfl⟩

/-- C7: every file the Discoverer outputs has a name ending in `.rs`, and
never has `test` as a substring of its name nor `tests` as a substring of its
parent directory path (exact, case-sensitive substring matching). -/
theorem C7_discovery_exclusion (entries : List DirEntry) (e : DirEntry)
    (h : e ∈ find_rust_files entries) :
    (str ".rs").isSuffixOf e.name = true ∧
    containsSub (str "test") e.name = false ∧
    containsSub (str "tests") e.parent = false := by
  unfold find_rust_files at h
  have h2 := List.mem_filter.mp h
  have h1 := List.mem_filter.mp h2.1
  have hor : (containsSub (str "test") e.name || containsSub (str "tests") e.parent) = false := by
    simpa using h2.2
  exact ⟨h1.2, (Bool.or_eq_false_iff.mp hor).1, (Bool.or_eq_false_iff.mp hor).2⟩

/-- Witness for C7: `src/main.rs` survives discovery among excluded entries. -/
theorem C7_discovery_exclusion_witness :
    (str ".rs").isSuffixOf (DirEntry.mk (str "main.rs") (str "src")).name = true ∧
    containsSub (str "test") (DirEntry.mk (str "main.rs") (str "src")).name = false ∧
    containsSub (str "tests") (DirEntry.mk (str "main.rs") (str "src")).parent = false :=
  C7_discovery_exclusion
    [⟨str "main.rs", str "src"⟩, ⟨str "main_test.rs", str "src"⟩,
     ⟨str "lib.rs", str "src/tests"⟩, ⟨str "notes.txt", str "src"⟩]
    ⟨str "main.rs", str "src"⟩ (by decide)

theorem runAll_skip_none (f : FSFile) (hf : f.content = none) :
    ∀ (pre post : List FSFile),
      (runAll (pre ++ f :: post)).allIssues = (runAll (pre ++ post)).allIssues ∧
      (runAll (pre ++ f :: post)).tU = (runAll (pre ++ post)).tU ∧
      (runAll (pre ++ f :: post)).tE = (runAll (pre ++ post)).tE ∧
      (runAll (pre ++ f :: post)).tP = (runAll (pre ++ post)).tP ∧
      (runAll (pre ++ f :: post)).diags =
        (runAll pre).diags ++ (str "Error reading " ++ f.path) :: (runAll post).diags := by
  intro pre
  induction pre with
  | nil =>
    intro post
    refine ⟨?_, ?_, ?_, ?_, ?_⟩ <;>
      simp [runAll, hf, analyze_file, anyIssues]
  | cons g pre2 ih =>
    intro post
    have ihp := ih post
    refine ⟨?_, ?_, ?_, ?_, ?_⟩
    · simp only [List.cons_append, runAll, List.append_eq]
      rw [ihp.1]
    · simp only [List.cons_append, runAll, List.append_eq]
      rw [ihp.2.1]
    · simp only [List.cons_append, runAll, List.append_eq]
      rw [ihp.2.2.1]
    · simp only [List.cons_append, runAll, List.append_eq]
      rw [ihp.2.2.2.1]
    · simp only [List.cons_append, runAll, List.append_eq]
      rw [ihp.2.2.2.2, List.append_assoc]

/-- C8: an unreadable file yields an empty FileReport, one diagnostics
message, and leaves every other file's contribution to the run unchanged —
the failure is never fatal. -/
theorem C8_read_failure (pre post : List FSFile) (f : FSFile) (hf : f.content = none) :
    analyze_file f.content = ⟨[], [], []⟩ ∧
    (runAll (pre ++ f :: post)).allIssues = (runAll (pre ++ post)).allIssues ∧
    (runAll (pre ++ f :: post)).tU = (runAll (pre ++ post)).tU ∧
    (runAll (pre ++ f :: post)).tE = (runAll (pre ++ post)).tE ∧
    (runAll (pre ++ f :: post)).tP = (runAll (pre ++ post)).tP ∧
    (runAll (pre ++ f :: post)).diags =
      (runAll pre).diags ++ (str "Error reading " ++ f.path) :: (runAll post).diags := by
  refine ⟨by rw [hf]; rfl, ?_⟩
  exact runAll_skip_none f hf pre post

/-- Witness for C8: a run over a readable file, an unreadable file and a
second readable file. -/
theorem C8_read_failure_witness :
    analyze_file (FSFile.mk (str "src/bad.rs") none).content = ⟨[], [], []⟩ ∧
    (runAll ([⟨str "src/a.rs", some [str "x.unwrap();"]⟩] ++
        FSFile.mk (str "src/bad.rs") none :: [⟨str "src/b.rs", some [str "panic!();"]⟩])).allIssues =
      (runAll ([⟨str "src/a.rs", some [str "x.unwrap();"]⟩] ++
        [⟨str "src/b.rs", some [str "panic!();"]⟩])).allIssues ∧
    (runAll ([⟨str "src/a.rs", some [str "x.unwrap();"]⟩] ++
        FSFile.mk (str "src/bad.rs") none :: [⟨str "src/b.rs", some [str "panic!();"]⟩])).tU =
      (runAll ([⟨str "src/a.rs", some [str "x.unwrap();"]⟩] ++
        [⟨str "src/b.rs", some [str "panic!();"]⟩])).tU ∧
    (runAll ([⟨str "src/a.rs", some [str "x.unwrap();"]⟩] ++
        FSFile.mk (str "src/bad.rs") none :: [⟨str "src/b.rs", some [str "panic!();"]⟩])).tE =
      (runAll ([⟨str "src/a.rs", some [str "x.unwrap();"]⟩] ++
        [⟨str "src/b.rs", some [str "panic!();"]⟩])).tE ∧
    (runAll ([⟨str "src/a.rs", some [str "x.unwrap();"]⟩] ++
        FSFile.mk (str "src/bad.rs") none :: [⟨str "src/b.rs", some [str "panic!();"]⟩])).tP =
      (runAll ([⟨str "src/a.rs", some [str "x.unwrap();"]⟩] ++
        [⟨str "src/b.rs", some [str "panic!();"]⟩])).tP ∧
    (runAll ([⟨str "src/a.rs", some [str "x.unwrap();"]⟩] ++
        FSFile.mk (str "src/bad.rs") none :: [⟨str "src/b.rs", some [str "panic!();"]⟩])).diags =
      (runAll [⟨str "src/a.rs", some [str "x.unwrap();"]⟩]).diags ++
        (str "Error reading " ++ (FSFile.mk (str "src/bad.rs") none).path) ::
          (runAll [⟨str "src/b.rs", some [str "panic!();"]⟩]).diags :=
  C8_read_failure [⟨str "src/a.rs", some [str "x.unwrap();"]⟩]
    [⟨str "src/b.rs", some [str "panic!();"]⟩] (FSFile.mk (str "src/bad.rs") none) rfl

theorem hash_prefix_lit (a x : List Char) (h : (str "#").isPrefixOf a = true) :
    (str "#").isPrefixOf (a ++ x) = true := by
  refine List.isPrefixOf_iff_prefix.mpr ?_
  exact (List.isPrefixOf_iff_prefix.mp h).trans (List.prefix_append a x)

theorem findingLines_comment (s : Suggestion) :
    ∀ l ∈ findingLines s, (str "#").isPrefixOf l = true := by
  intro l hl
  cases htype : s.type <;>
    simp only [findingLines, htype, List.mem_cons, List.not_mem_nil, or_false] at hl
  · rcases hl with h1 | h2
    · rw [h1, List.append_assoc]
      exact hash_prefix_lit (str "# Line ") _ (by decide)
    · rw [h2]
      unfold sedLineFor
      simp only [List.append_assoc]
      exact hash_prefix_lit (str "# sed -i ") _ (by decide)
  · rcases hl with h1 | h2
    · rw [h1, List.append_assoc]
      exact hash_prefix_lit (str "# Line ") _ (by decide)
    · rw [h2]
      decide
  · rcases hl with h1 | h2
    · rw [h1, List.append_assoc]
      exact hash_prefix_lit (str "# Line ") _ (by decide)
    · rw [h2]
      decide

theorem scriptLines_comment (grouped : List (List Char × List Suggestion)) :
    ∀ l ∈ scriptLines grouped, l = [] ∨ (str "#").isPrefixOf l = true := by
  intro l hl
  rcases List.mem_append.mp hl with hh | hb
  · simp only [headerLines, List.mem_cons, List.not_mem_nil, or_false] at hh
    rcases hh with h | h | h | h
    · right; rw [h]; decide
    · right; rw [h]; decide
    · right; rw [h]; decide
    · left; rw [h]; rfl
  · obtain ⟨p, hp, hlp⟩ := List.mem_flatMap.mp hb
    simp only [fileBlock, List.mem_cons] at hlp
    rcases hlp with h | h | h
    · left; rw [h]; rfl
    · right
      rw [h]
      exact hash_prefix_lit (str "# Fixes for ") _ (by decide)
    · right
      obtain ⟨s, hs, hls⟩ := List.mem_flatMap.mp h
      exact findingLines_comment s l hls

theorem findingLines_sub_script (grouped : List (List Char × List Suggestion))
    (p : List Char × List Suggestion) (hp : p ∈ grouped) (s : Suggestion) (hs : s ∈ p.2) :
    ∀ l ∈ findingLines s, l ∈ scriptLines grouped := by
  intro l hl
  unfold scriptLines
  refine List.mem_append.mpr (Or.inr ?_)
  refine List.mem_flatMap.mpr ⟨p, hp, ?_⟩
  unfold fileBlock
  exact List.mem_cons_of_mem _ (List.mem_cons_of_mem _ (List.mem_flatMap.mpr ⟨s, hs, hl⟩))

/-- C9: in the emitted companion script every unwrap Finding contributes its
disabled (commented-out) sed substitution command, every expect or panic
Finding contributes the `# Manual fix needed` marker, and every line of the
artifact is blank or starts with the comment character, so no command is
enabled by default. -/
theorem C9_script_disabled (grouped : List (List Char × List Suggestion)) :
    (∀ l ∈ scriptLines grouped, l = [] ∨ (str "#").isPrefixOf l = true) ∧
    (∀ p ∈ grouped, ∀ s ∈ p.2,
      (s.type = Kind.unwrap → sedLineFor s.file ∈ scriptLines grouped) ∧
      (s.type ≠ Kind.unwrap → str "# Manual fix needed" ∈ scriptLines grouped)) := by
  refine ⟨scriptLines_comment grouped, ?_⟩
  intro p hp s hs
  constructor
  · intro ht
    refine findingLines_sub_script grouped p hp s hs _ ?_
    simp [findingLines, ht]
  · intro ht
    refine findingLines_sub_script grouped p hp s hs _ ?_
    cases h2 : s.type
    · exact absurd h2 ht
    · simp [findingLines, h2]
    · simp [findingLines, h2]

/-- Witness for C9 on a two-finding grouping: the unwrap Finding's commented
sed command and an expect Finding's manual-fix marker both appear in the
script. -/
theorem C9_script_disabled_witness :
    sedLineFor (Suggestion.mk (str "a.rs") 3 Kind.unwrap (str "x.unwrap();")
        (str "x?;")).file ∈
      scriptLines [(str "a.rs",
        [⟨str "a.rs", 3, Kind.unwrap, str "x.unwrap();", str "x?;"⟩,
         ⟨str "a.rs", 4, Kind.expect, str "e", str "e"⟩])] ∧
    str "# Manual fix needed" ∈
      scriptLines [(str "a.rs",
        [⟨str "a.rs", 3, Kind.unwrap, str "x.unwrap();", str "x?;"⟩,
         ⟨str "a.rs", 4, Kind.expect, str "e", str "e"⟩])] := by
  constructor
  · exact ((C9_script_disabled [(str "a.rs",
      [⟨str "a.rs", 3, Kind.unwrap, str "x.unwrap();", str "x?;"⟩,
       ⟨str "a.rs", 4, Kind.expect, str "e", str "e"⟩])]).2
      (str "a.rs", [⟨str "a.rs", 3, Kind.unwrap, str "x.unwrap();", str "x?;"⟩,
       ⟨str "a.rs", 4, Kind.expect, str "e", str "e"⟩]) (by decide)
      ⟨str "a.rs", 3, Kind.unwrap, str "x.unwrap();", str "x?;"⟩ (by decide)).1 rfl
  · exact ((C9_script_disabled [(str "a.rs",
      [⟨str "a.rs", 3, Kind.unwrap, str "x.unwrap();", str "x?;"⟩,
       ⟨str "a.rs", 4, Kind.expect, str "e", str "e"⟩])]).2
      (str "a.rs", [⟨str "a.rs", 3, Kind.unwrap, str "x.unwrap();", str "x?;"⟩,
       ⟨str "a.rs", 4, Kind.expect, str "e", str "e"⟩]) (by decide)
      ⟨str "a.rs", 4, Kind.expect, str "e", str "e"⟩ (by decide)).2 (by decide)

theorem listLe_cons (x y : Char) (as2 bs : List Char) :
    listLe (x :: as2) (y :: bs) =
      if x.toNat = y.toNat then listLe as2 bs else decide (x.toNat < y.toNat) := rfl

theorem listLe_total : ∀ (a b : List Char), listLe a b = true ∨ listLe b a = true := by
  intro a
  induction a with
  | nil => intro b; left; rfl
  | cons x as2 ih =>
    intro b
    cases b with
    | nil => right; rfl
    | cons y bs =>
      rw [listLe_cons, listLe_cons]
      by_cases hxy : x.toNat = y.toNat
      · rw [if_pos hxy, if_pos hxy.symm]
        exact ih bs
      · rw [if_neg hxy, if_neg (fun h => hxy h.symm)]
        rcases Nat.lt_or_ge x.toNat y.toNat with hlt | hge
        · left; simpa using hlt
        · right
          have : y.toNat < x.toNat := by omega
          simpa using this

theorem listLe_trans :
    ∀ (a b c : List Char), listLe a b = true → listLe b c = true → listLe a c = true := by
  intro a
  induction a with
  | nil => intro b c _ _; rfl
  | cons x as2 ih =>
    intro b c hab hbc
    cases b with
    | nil => simp [listLe] at hab
    | cons y bs =>
      cases c with
      | nil => simp [listLe] at hbc
      | cons z cs =>
        rw [listLe_cons] at hab hbc ⊢
        by_cases hxy : x.toNat = y.toNat
        · rw [if_pos hxy] at hab
          by_cases hyz : y.toNat = z.toNat
          · rw [if_pos hyz] at hbc
            rw [if_pos (hxy.trans hyz)]
            exact ih bs cs hab hbc
          · rw [if_neg hyz] at hbc
            have hlt : y.toNat < z.toNat := by simpa using hbc
            rw [if_neg (by omega)]
            simp only [decide_eq_true_eq]
            omega
        · rw [if_neg hxy] at hab
          have hlt : x.toNat < y.toNat := by simpa using hab
          by_cases hyz : y.toNat = z.toNat
          · rw [if_neg (by omega)]
            simp only [decide_eq_true_eq]
            omega
          · rw [if_neg hyz] at hbc
            have hlt2 : y.toNat < z.toNat := by simpa using hbc
            rw [if_neg (by omega)]
            simp only [decide_eq_true_eq]
            omega

theorem mem_insertByKey (p x : List Char × List Suggestion) :
    ∀ (l : List (List Char × List Suggestion)),
      (x ∈ insertByKey p l ↔ x = p ∨ x ∈ l) := by
  intro l
  induction l with
  | nil => simp [insertByKey]
  | cons q rest ih =>
    by_cases h : listLe p.1 q.1 = true
    · simp [insertByKey, h]
    · simp only [insertByKey, if_neg h, List.mem_cons, ih]
      tauto

theorem pairwise_insertByKey (p : List Char × List Suggestion) :
    ∀ (l : List (List Char × List Suggestion)),
      List.Pairwise (fun u v => listLe u.1 v.1 = true) l →
      List.Pairwise (fun u v => listLe u.1 v.1 = true) (insertByKey p l) := by
  intro l
  induction l with
  | nil =>
    intro _
    simp [insertByKey]
  | cons q rest ih =>
    intro hl
    rcases List.pairwise_cons.mp hl with ⟨hq, hrest⟩
    by_cases h : listLe p.1 q.1 = true
    · rw [show insertByKey p (q :: rest) = p :: q :: rest from if_pos h]
      refine List.pairwise_cons.mpr ⟨?_, hl⟩
      intro x hx
      rcases List.mem_cons.mp hx with rfl | hx2
      · exact h
      · exact listLe_trans _ _ _ h (hq x hx2)
    · rw [show insertByKey p (q :: rest) = q :: insertByKey p rest from if_neg h]
      refine List.pairwise_cons.mpr ⟨?_, ih hrest⟩
      intro x hx
      rcases (mem_insertByKey p x rest).mp hx with rfl | hx2
      · rcases listLe_total x.1 q.1 with h1 | h2
        · exact absurd h1 h
        · exact h2
      · exact hq x hx2

theorem pairwise_sortByKey :
    ∀ (l : List (List Char × List Suggestion)),
      List.Pairwise (fun u v => listLe u.1 v.1 = true) (sortByKey l) := by
  intro l
  induction l with
  | nil => exact List.Pairwise.nil
  | cons p rest ih => exact pairwise_insertByKey p _ ih

theorem mem_sortByKey (x : List Char × List Suggestion) :
    ∀ (l : List (List Char × List Suggestion)), x ∈ sortByKey l ↔ x ∈ l := by
  intro l
  induction l with
  | nil => simp [sortByKey]
  | cons p rest ih =>
    show x ∈ insertByKey p (sortByKey rest) ↔ _
    rw [mem_insertByKey p x (sortByKey rest), ih]
    simp

/-- The keys of the grouping association list. -/
def keysOf (acc : List (List Char × List Suggestion)) : List (List Char) :=
  acc.map Prod.fst

theorem addToGroup_fresh (s : Suggestion) :
    ∀ (acc : List (List Char × List Suggestion)), s.file ∉ keysOf acc →
      addToGroup acc s = acc ++ [(s.file, [s])] := by
  intro acc
  induction acc with
  | nil => intro _; rfl
  | cons q rest ih =>
    intro h
    cases q with
    | mk k v =>
      have hk : ¬ (k = s.file) := by
        intro he
        exact h (by simp [keysOf, he])
      show (if k = s.file then (k, v ++ [s]) :: rest else (k, v) :: addToGroup rest s) = _
      rw [if_neg hk, ih (fun hmem => h (by simp [keysOf] at hmem ⊢; exact Or.inr hmem))]
      rfl

theorem addToGroup_last (k : List Char) (v : List Suggestion) (s : Suggestion)
    (hs : s.file = k) :
    ∀ (acc : List (List Char × List Suggestion)), k ∉ keysOf acc →
      addToGroup (acc ++ [(k, v)]) s = acc ++ [(k, v ++ [s])] := by
  intro acc
  induction acc with
  | nil =>
    intro _
    show (if k = s.file then (k, v ++ [s]) :: [] else (k, v) :: addToGroup [] s) = _
    rw [if_pos hs.symm]
    rfl
  | cons q rest ih =>
    intro h
    cases q with
    | mk k2 v2 =>
      have hk : ¬ (k2 = s.file) := by
        intro he
        exact h (by simp [keysOf, hs ▸ he])
      show (if k2 = s.file then (k2, v2 ++ [s]) :: (rest ++ [(k, v)])
          else (k2, v2) :: addToGroup (rest ++ [(k, v)]) s) = _
      rw [if_neg hk, ih (fun hmem => h (by simp [keysOf] at hmem ⊢; exact Or.inr hmem))]
      rfl

theorem foldl_addToGroup_block (k : List Char) :
    ∀ (block : List Suggestion) (v : List Suggestion)
      (acc : List (List Char × List Suggestion)), k ∉ keysOf acc →
      (∀ s ∈ block, s.file = k) →
      List.foldl addToGroup (acc ++ [(k, v)]) block = acc ++ [(k, v ++ block)] := by
  intro block
  induction block with
  | nil =>
    intro v acc _ _
    simp
  | cons s rest ih =>
    intro v acc hk hb
    rw [List.foldl_cons, addToGroup_last k v s (hb s (by simp)) acc hk]
    rw [ih (v ++ [s]) acc hk (fun s2 hs2 => hb s2 (by simp [hs2]))]
    rw [List.append_assoc]
    rfl

/-- The grouping that `issues_by_file` produces when all file paths are
distinct: one entry per file with Findings, in file order. -/
def groupedDirect : List FSFile → List (List Char × List Suggestion)
  | [] => []
  | f :: rest =>
    (if anyIssues (analyze_file f.content) then
        [(f.path, generate_fix_suggestions f.path (analyze_file f.content))]
      else []) ++ groupedDirect rest

theorem gfs_file_eq (path : List Char) (I : Issues) :
    ∀ s ∈ generate_fix_suggestions path I, s.file = path := by
  intro s hs
  unfold generate_fix_suggestions at hs
  rcases List.mem_append.mp hs with h12 | h3
  · rcases List.mem_append.mp h12 with h1 | h2
    · obtain ⟨e, _, he⟩ := List.mem_map.mp h1
      rw [← he]
    · obtain ⟨e, _, he⟩ := List.mem_map.mp h2
      rw [← he]
  · obtain ⟨e, _, he⟩ := List.mem_map.mp h3
    rw [← he]

theorem gfs_ne_nil (path : List Char) (I : Issues) (h : anyIssues I = true) :
    generate_fix_suggestions path I ≠ [] := by
  unfold generate_fix_suggestions
  unfold anyIssues at h
  rcases Bool.or_eq_true_iff.mp h with h12 | h3
  · rcases Bool.or_eq_true_iff.mp h12 with h1 | h2
    · have : I.unwrap ≠ [] := by
        intro he
        rw [he] at h1
        simp at h1
      have hm : I.unwrap.map (fun e =>
          Suggestion.mk path e.1 Kind.unwrap e.2 (suggest_unwrap_fix e.2)) ≠ [] := by
        simpa using this
      exact List.append_ne_nil_of_left_ne_nil
        (List.append_ne_nil_of_left_ne_nil hm _) _
    · have : I.expect ≠ [] := by
        intro he
        rw [he] at h2
        simp at h2
      have hm : I.expect.map (fun e =>
          Suggestion.mk path e.1 Kind.expect e.2 (suggest_expect_fix e.2)) ≠ [] := by
        simpa using this
      refine List.append_ne_nil_of_left_ne_nil ?_ _
      intro he
      rcases List.append_eq_nil.mp he with ⟨_, h2e⟩
      exact hm h2e
  · have : I.panic ≠ [] := by
      intro he
      rw [he] at h3
      simp at h3
    have hm : I.panic.map (fun e =>
        Suggestion.mk path e.1 Kind.panic e.2 (suggest_panic_fix e.2)) ≠ [] := by
      simpa using this
    intro he
    rcases List.append_eq_nil.mp he with ⟨_, h3e⟩
    exact hm h3e

theorem foldl_group_runAll :
    ∀ (files : List FSFile) (acc : List (List Char × List Suggestion)),
      (∀ f ∈ files, f.path ∉ keysOf acc) → (files.map FSFile.path).Nodup →
      List.foldl addToGroup acc (runAll files).allIssues = acc ++ groupedDirect files := by
  intro files
  induction files with
  | nil =>
    intro acc _ _
    show List.foldl addToGroup acc [] = acc ++ []
    simp
  | cons f rest ih =>
    intro acc hfresh hnd
    rcases List.nodup_cons.mp hnd with ⟨hne, hnd2⟩
    show List.foldl addToGroup acc
      ((if anyIssues (analyze_file f.content) then
          generate_fix_suggestions f.path (analyze_file f.content) else []) ++
        (runAll rest).allIssues) = acc ++ groupedDirect (f :: rest)
    rw [List.foldl_append]
    by_cases hA : anyIssues (analyze_file f.content) = true
    · rw [if_pos hA]
      have hblockfile := gfs_file_eq f.path (analyze_file f.content)
      have hfreshf : f.path ∉ keysOf acc := hfresh f (by simp)
      cases hblock : generate_fix_suggestions f.path (analyze_file f.content) with
      | nil => exact absurd hblock (gfs_ne_nil _ _ hA)
      | cons s0 bs =>
        have hs0 : s0.file = f.path := hblockfile s0 (by rw [hblock]; simp)
        rw [List.foldl_cons]
        rw [addToGroup_fresh s0 acc (by rw [hs0]; exact hfreshf)]
        rw [hs0]
        rw [foldl_addToGroup_block f.path bs [s0] acc hfreshf
          (fun s2 hs2 => hblockfile s2 (by rw [hblock]; simp [hs2]))]
        have hrec := ih (acc ++ [(f.path, [s0] ++ bs)]) (fun g hg => by
          intro hmem
          have : keysOf (acc ++ [(f.path, [s0] ++ bs)]) = keysOf acc ++ [f.path] := by
            simp [keysOf]
          rw [this] at hmem
          rcases List.mem_append.mp hmem with hm1 | hm2
          · exact hfresh g (by simp [hg]) hm1
          · have : g.path = f.path := by simpa using hm2
            exact hne (this ▸ List.mem_map_of_mem FSFile.path hg)) hnd2
        rw [hrec]
        show acc ++ [(f.path, [s0] ++ bs)] ++ groupedDirect rest = _
        rw [show groupedDirect (f :: rest) =
          (if anyIssues (analyze_file f.content) then
              [(f.path, generate_fix_suggestions f.path (analyze_file f.content))]
            else []) ++ groupedDirect rest from rfl]
        rw [if_pos hA, hblock, List.append_assoc]
        rfl
    · rw [if_neg hA]
      rw [List.foldl_nil]
      rw [ih acc (fun g hg => hfresh g (by simp [hg])) hnd2]
      rw [show groupedDirect (f :: rest) =
        (if anyIssues (analyze_file f.content) then
            [(f.path, generate_fix_suggestions f.path (analyze_file f.content))]
          else []) ++ groupedDirect rest from rfl]
      rw [if_neg hA]
      rfl

theorem issues_by_file_eq_direct (files : List FSFile)
    (hnd : (files.map FSFile.path).Nodup) :
    issues_by_file files = groupedDirect files := by
  unfold issues_by_file
  have := foldl_group_runAll files [] (by simp [keysOf]) hnd
  simpa using this

theorem groupedDirect_mem :
    ∀ (files : List FSFile) (x : List Char × List Suggestion), x ∈ groupedDirect files →
      ∃ f ∈ files, x.1 = f.path ∧
        x.2 = generate_fix_suggestions f.path (analyze_file f.content) ∧
        anyIssues (analyze_file f.content) = true := by
  intro files
  induction files with
  | nil => intro x hx; simp [groupedDirect] at hx
  | cons f rest ih =>
    intro x hx
    rcases List.mem_append.mp hx with h1 | h2
    · by_cases hA : anyIssues (analyze_file f.content) = true
      · rw [if_pos hA] at h1
        have : x = (f.path, generate_fix_suggestions f.path (analyze_file f.content)) := by
          simpa using h1
        exact ⟨f, by simp, by rw [this], by rw [this], hA⟩
      · rw [if_neg hA] at h1
        simp at h1
    · obtain ⟨g, hg, h⟩ := ih x h2
      exact ⟨g, by simp [hg], h⟩

theorem scanK_sorted (p : List Char → Bool) :
    ∀ (lines : List (List Char)) (i : Nat) (flag : Bool),
      List.Pairwise (fun a b => a.1 < b.1) (scanK p i flag lines) := by
  intro lines
  induction lines with
  | nil => intro i flag; exact List.Pairwise.nil
  | cons line rest ih =>
    intro i flag
    rw [scanK_cons]
    by_cases hc : ((flag || testMatch line) && !(isComment line)) = true
    · rw [if_pos hc]
      exact ih _ _
    · rw [if_neg hc]
      refine List.pairwise_append.mpr ⟨?_, ih _ _, ?_⟩
      · by_cases hp2 : p line = true
        · rw [if_pos hp2]
          simp
        · rw [if_neg hp2]
          simp
      · intro a ha b hb
        have hbd := (scanK_bounds p rest (i+1) _ b.1 b.2 (by rw [Prod.mk.eta]; exact hb)).1
        by_cases hp2 : p line = true
        · rw [if_pos hp2] at ha
          have : a = (i+1, pyStrip line) := by simpa using ha
          rw [this]
          simpa using hbd
        · rw [if_neg hp2] at ha
          simp at ha

theorem scanK_content (p : List Char → Bool) :
    ∀ (lines : List (List Char)) (i : Nat) (flag : Bool) (n : Nat) (t : List Char),
      (n, t) ∈ scanK p i flag lines →
      t = pyStrip (lines.getD (n - (i+1)) []) ∧ p (lines.getD (n - (i+1)) []) = true := by
  intro lines
  induction lines with
  | nil => intro i flag n t h; simp [scanK] at h
  | cons line rest ih =>
    intro i flag n t h
    rw [scanK_cons] at h
    by_cases hc : ((flag || testMatch line) && !(isComment line)) = true
    · rw [if_pos hc] at h
      have hbd := (scanK_bounds p rest (i+1) _ n t h).1
      have hrec := ih (i+1) _ n t h
      have harith : n - (i+1) = (n - (i+2)) + 1 := by omega
      rw [harith, List.getD_cons_succ]
      exact hrec
    · rw [if_neg hc] at h
      rcases List.mem_append.mp h with h1 | h2
      · by_cases hp2 : p line = true
        · rw [if_pos hp2] at h1
          have : n = i + 1 ∧ t = pyStrip line := by simpa using h1
          rw [this.2, show n - (i+1) = 0 from by omega]
          exact ⟨rfl, hp2⟩
        · rw [if_neg hp2] at h1
          simp at h1
      · have hbd := (scanK_bounds p rest (i+1) _ n t h2).1
        have hrec := ih (i+1) _ n t h2
        have harith : n - (i+1) = (n - (i+2)) + 1 := by omega
        rw [harith, List.getD_cons_succ]
        exact hrec

/-- Rendering order of the detailed report inside one file's section:
grouped by construct kind in the fixed order unwrap, expect, panic, and by
ascending line number within a kind. -/
def suggOrder (s t2 : Suggestion) : Prop :=
  kindIdx s.type < kindIdx t2.type ∨ (s.type = t2.type ∧ s.line < t2.line)

theorem gfs_pairwise (path : List Char) (I : Issues)
    (hu : List.Pairwise (fun a b => a.1 < b.1) I.unwrap)
    (he : List.Pairwise (fun a b => a.1 < b.1) I.expect)
    (hp : List.Pairwise (fun a b => a.1 < b.1) I.panic) :
    List.Pairwise suggOrder (generate_fix_suggestions path I) := by
  unfold generate_fix_suggestions
  refine List.pairwise_append.mpr ⟨List.pairwise_append.mpr ⟨?_, ?_, ?_⟩, ?_, ?_⟩
  · refine List.pairwise_map.mpr (hu.imp ?_)
    intro a b hab
    exact Or.inr ⟨rfl, hab⟩
  · refine List.pairwise_map.mpr (he.imp ?_)
    intro a b hab
    exact Or.inr ⟨rfl, hab⟩
  · intro a ha b hb
    obtain ⟨ea, _, hea⟩ := List.mem_map.mp ha
    obtain ⟨eb, _, heb⟩ := List.mem_map.mp hb
    rw [← hea, ← heb]
    exact Or.inl (by simp [kindIdx])
  · refine List.pairwise_map.mpr (hp.imp ?_)
    intro a b hab
    exact Or.inr ⟨rfl, hab⟩
  · intro a ha b hb
    obtain ⟨eb, _, heb⟩ := List.mem_map.mp hb
    rcases List.mem_append.mp ha with h1 | h2
    · obtain ⟨ea, _, hea⟩ := List.mem_map.mp h1
      rw [← hea, ← heb]
      exact Or.inl (by simp [kindIdx])
    · obtain ⟨ea, _, hea⟩ := List.mem_map.mp h2
      rw [← hea, ← heb]
      exact Or.inl (by simp [kindIdx])

theorem gfs_fields (path : List Char) (I : Issues) :
    ∀ s ∈ generate_fix_suggestions path I,
      s.file = path ∧ s.suggestion = suggestFor s.type s.original ∧
      (s.line, s.original) ∈ (match s.type with
        | Kind.unwrap => I.unwrap
        | Kind.expect => I.expect
        | Kind.panic => I.panic) := by
  intro s hs
  unfold generate_fix_suggestions at hs
  rcases List.mem_append.mp hs with h12 | h3
  · rcases List.mem_append.mp h12 with h1 | h2
    · obtain ⟨e, hmem, he⟩ := List.mem_map.mp h1
      rw [← he]
      exact ⟨rfl, rfl, by rw [Prod.mk.eta]; exact hmem⟩
    · obtain ⟨e, hmem, he⟩ := List.mem_map.mp h2
      rw [← he]
      exact ⟨rfl, rfl, by rw [Prod.mk.eta]; exact hmem⟩
  · obtain ⟨e, hmem, he⟩ := List.mem_map.mp h3
    rw [← he]
    exact ⟨rfl, rfl, by rw [Prod.mk.eta]; exact hmem⟩

theorem analyze_file_kinds_sorted (content : Option (List (List Char))) :
    List.Pairwise (fun a b => a.1 < b.1) (analyze_file content).unwrap ∧
    List.Pairwise (fun a b => a.1 < b.1) (analyze_file content).expect ∧
    List.Pairwise (fun a b => a.1 < b.1) (analyze_file content).panic := by
  cases content with
  | none => exact ⟨List.Pairwise.nil, List.Pairwise.nil, List.Pairwise.nil⟩
  | some ls =>
    have hb : analyze_file (some ls) =
        ⟨scanK unwrapMatch 0 false ls, scanK expectMatch 0 false ls,
         scanK panicMatch 0 false ls⟩ := by
      rw [show analyze_file (some ls) = analyzeLines ls from rfl, analyzeLines,
        analyzeLoop_eq_scanK]
    rw [hb]
    exact ⟨scanK_sorted _ _ _ _, scanK_sorted _ _ _ _, scanK_sorted _ _ _ _⟩

/-- C1 counterexample: a file whose first line holds an expect Finding and
whose second line an unwrap Finding renders the unwrap Finding (line 2)
before the expect Finding (line 1): the section's line-number sequence is
`[2, 1]`, which is not ascending, refuting "Findings listed in original line
order across all construct kinds". -/
theorem C1_counterexample :
    (detailedReport [⟨str "src/a.rs", some [str "x.expect(\"m\")\n", str "y.unwrap()\n"]⟩]).map
        (fun pr => pr.2.map Suggestion.line) = [[2, 1]] ∧
    ¬ List.Pairwise (fun a b => a ≤ b) ([2, 1] : List Nat) :=
  ⟨by decide, by decide⟩

/-- C1 (amended): in the detailed report, files appear sorted
lexicographically by path; within each file's section the Findings are the
file's suggestions grouped by construct kind in the fixed order unwrap,
expect, panic, each kind in ascending original line order, each carrying its
original trimmed line text and the suggestion the engine computes from it. -/
theorem C1_report_order (files : List FSFile) (hnd : (files.map FSFile.path).Nodup) :
    List.Pairwise (fun u v => listLe u.1 v.1 = true) (detailedReport files) ∧
    ∀ pr ∈ detailedReport files, ∃ f ∈ files,
      pr.1 = f.path ∧
      pr.2 = generate_fix_suggestions f.path (analyze_file f.content) ∧
      List.Pairwise suggOrder pr.2 ∧
      ∀ s ∈ pr.2, s.file = f.path ∧ s.suggestion = suggestFor s.type s.original ∧
        (∀ ls, f.content = some ls → s.original = pyStrip (ls.getD (s.line - 1) [])) := by
  constructor
  · exact pairwise_sortByKey _
  · intro pr hpr
    have hpr2 : pr ∈ issues_by_file files := (mem_sortByKey pr _).mp hpr
    rw [issues_by_file_eq_direct files hnd] at hpr2
    obtain ⟨f, hf, hfst, hsnd, hA⟩ := groupedDirect_mem files pr hpr2
    refine ⟨f, hf, hfst, hsnd, ?_, ?_⟩
    · rw [hsnd]
      have hs := analyze_file_kinds_sorted f.content
      exact gfs_pairwise f.path (analyze_file f.content) hs.1 hs.2.1 hs.2.2
    · intro s hs
      rw [hsnd] at hs
      obtain ⟨hfile, hsugg, hmem⟩ := gfs_fields f.path (analyze_file f.content) s hs
      refine ⟨hfile, hsugg, ?_⟩
      intro ls hcon
      rw [hcon] at hmem
      have hb : analyze_file (some ls) =
          ⟨scanK unwrapMatch 0 false ls, scanK expectMatch 0 false ls,
           scanK panicMatch 0 false ls⟩ := by
        rw [show analyze_file (some ls) = analyzeLines ls from rfl, analyzeLines,
          analyzeLoop_eq_scanK]
      cases htype : s.type
      · rw [htype] at hmem
        rw [hb] at hmem
        have := (scanK_content unwrapMatch ls 0 false s.line s.original hmem).1
        simpa using this
      · rw [htype] at hmem
        rw [hb] at hmem
        have := (scanK_content expectMatch ls 0 false s.line s.original hmem).1
        simpa using this
      · rw [htype] at hmem
        rw [hb] at hmem
        have := (scanK_content panicMatch ls 0 false s.line s.original hmem).1
        simpa using this

/-- Witness for C1 (amended) on a two-file tree given in non-sorted order. -/
theorem C1_report_order_witness :
    List.Pairwise (fun u v => listLe u.1 v.1 = true)
      (detailedReport [⟨str "src/b.rs", some [str "y.unwrap()\n"]⟩,
        ⟨str "src/a.rs", some [str "x.expect(\"m\")\n", str "z.unwrap()\n"]⟩]) ∧
    ∀ pr ∈ detailedReport [⟨str "src/b.rs", some [str "y.unwrap()\n"]⟩,
        ⟨str "src/a.rs", some [str "x.expect(\"m\")\n", str "z.unwrap()\n"]⟩],
      ∃ f ∈ ([⟨str "src/b.rs", some [str "y.unwrap()\n"]⟩,
        ⟨str "src/a.rs", some [str "x.expect(\"m\")\n", str "z.unwrap()\n"]⟩] : List FSFile),
      pr.1 = f.path ∧
      pr.2 = generate_fix_suggestions f.path (analyze_file f.content) ∧
      List.Pairwise suggOrder pr.2 ∧
      ∀ s ∈ pr.2, s.file = f.path ∧ s.suggestion = suggestFor s.type s.original ∧
        (∀ ls, f.content = some ls → s.original = pyStrip (ls.getD (s.line - 1) [])) :=
  C1_report_order _ (by decide)
